import Mathlib

/-! Verification of the timed-quiz subsystem of the course-platform server
(`src/routes/quizExam.js`): exam/question management, the attempt lifecycle,
the scoring loop, rank computation, the analytics cache and the leaderboard
projection, embedded as pure functions over an explicit database state.
Timestamps are naturals supplied by the caller, JS floating-point percentages
are modelled as rationals, and Prisma result order is modelled as storage
(insertion) order, with `orderBy` rendered as a stable sort. -/

namespace QuizExam

/-- A quiz question (`quiz_exam_questions`): identifier, correct answer, marks. -/
structure Question where
  id : String
  correctAnswer : String
  marks : Nat
deriving DecidableEq

/-- A quiz exam (`quiz_exams`), with its questions inlined. -/
structure Quiz where
  id : String
  title : String
  totalMarks : Nat
  durationMinutes : Nat
  isActive : Bool
  questions : List Question
deriving DecidableEq

/-- Per-question scoring record stored in an attempt's `details` blob. -/
structure QResult where
  userAnswer : Option String
  correctAnswer : String
  isCorrect : Bool
  marks : Nat
deriving DecidableEq

/-- A quiz attempt row (`quiz_exam_attempts`). -/
structure Attempt where
  id : Nat
  quizId : String
  userId : String
  score : Nat
  totalMarks : Nat
  percentage : ℚ
  startedAt : Nat
  submittedAt : Option Nat
  rank : Option Nat
  details : List (String × QResult)
deriving DecidableEq

/-- Cached analytics row (`quiz_exam_analytics`). -/
structure Analytics where
  averageScore : ℚ
  highestScore : ℚ
  lowestScore : ℚ
  totalAttempts : Nat
  topperId : String
deriving DecidableEq

/-- The persistent store. -/
structure DB where
  quizzes : List Quiz
  attempts : List Attempt
  analytics : List (String × Analytics)
  nextAttemptId : Nat
deriving DecidableEq

/-- JS object property read on an association list. -/
def getKey {β : Type} (l : List (String × β)) (k : String) : Option β :=
  match l with
  | [] => none
  | (k', v) :: rest => if k' == k then some v else getKey rest k

/-- JS object property assignment: replace an existing binding in place,
otherwise append. -/
def setKey {β : Type} (k : String) (v : β) : List (String × β) → List (String × β)
  | [] => [(k, v)]
  | (k', v') :: rest => if k' == k then (k, v) :: rest else (k', v') :: setKey k v rest

/-- Insert `x` after every element that strictly precedes it (stable insert). -/
def insertBy {α : Type} (lt : α → α → Bool) (x : α) : List α → List α
  | [] => [x]
  | y :: ys => if lt y x then y :: insertBy lt x ys else x :: y :: ys

/-- Stable sort by a strict precedence predicate, modelling Prisma `orderBy`. -/
def sortBy {α : Type} (lt : α → α → Bool) : List α → List α
  | [] => []
  | x :: xs => insertBy lt x (sortBy lt xs)

/-- `orderBy: { score: 'desc' }` precedence. -/
def ltScore (a b : Attempt) : Bool := decide (b.score < a.score)

/-- `orderBy: [{ percentage: 'desc' }, { submittedAt: 'asc' }]` precedence. -/
def ltBoard (a b : Attempt) : Bool :=
  decide (b.percentage < a.percentage) ||
    (decide (a.percentage = b.percentage) && decide (a.submittedAt.getD 0 < b.submittedAt.getD 0))

/-- The `where` filter of the active-attempt `findFirst`:
`{ quizId, userId, submittedAt: null }`. -/
def activePred (quizId userId : String) (a : Attempt) : Bool :=
  a.quizId == quizId && a.userId == userId && a.submittedAt.isNone

/-- `findFirst` for the learner's unsubmitted attempt of one quiz. -/
def findActiveAttempt (db : DB) (quizId userId : String) : Option Attempt :=
  db.attempts.find? (activePred quizId userId)

/-- `findUnique` on `quiz_exams`. -/
def findQuiz (db : DB) (quizId : String) : Option Quiz :=
  db.quizzes.find? (fun q => q.id == quizId)

/-- `findMany` of the Submitted attempts of one quiz, in storage order. -/
def submittedFor (db : DB) (quizId : String) : List Attempt :=
  db.attempts.filter (fun a => a.quizId == quizId && a.submittedAt.isSome)

/-- Prisma `update` on one attempt row, keyed by id. -/
def updateAttemptIn (l : List Attempt) (attemptId : Nat) (f : Attempt → Attempt) : List Attempt :=
  l.map (fun a => if a.id == attemptId then f a else a)

/-- The comparison `userAnswer === question.correctAnswer`; an absent answer
(`undefined`) is never equal to a string. -/
def answerCorrect (userAnswer : Option String) (correctAnswer : String) : Bool :=
  match userAnswer with
  | some s => s == correctAnswer
  | none => false

/-- One iteration of the submit handler's scoring loop: add the question's marks
when correct and record the per-question result by JS property assignment. -/
def scoreStep (answers : List (String × String)) (acc : Nat × List (String × QResult))
    (q : Question) : Nat × List (String × QResult) :=
  let userAnswer := getKey answers q.id
  let isCorrect := answerCorrect userAnswer q.correctAnswer
  (acc.1 + (if isCorrect then q.marks else 0),
   setKey q.id ⟨userAnswer, q.correctAnswer, isCorrect, if isCorrect then q.marks else 0⟩ acc.2)

/-- The submit handler's scoring loop over the quiz's question set. -/
def scoreQuiz (questions : List Question) (answers : List (String × String)) :
    Nat × List (String × QResult) :=
  questions.foldl (scoreStep answers) (0, [])

/-- `updateQuizAnalytics`: recompute the cached row from the quiz's Submitted
set ordered by score descending; an empty set leaves the store untouched. -/
def updateQuizAnalytics (db : DB) (quizId : String) : DB :=
  match sortBy ltScore (submittedFor db quizId) with
  | [] => db
  | a0 :: rest =>
      let attempts := a0 :: rest
      let totalAttempts := attempts.length
      let averageScore := ((attempts.map (fun a => a.percentage)).sum) / (totalAttempts : ℚ)
      let highestScore := a0.percentage
      let lowestScore := (attempts.getLast (List.cons_ne_nil a0 rest)).percentage
      let topperId := a0.userId
      { db with analytics :=
          (setKey quizId ⟨averageScore, highestScore, lowestScore, totalAttempts, topperId⟩
            db.analytics) }

inductive StartResult where
  | ok (attempt : Attempt)
  | quizNotFound
  | quizInactive
deriving DecidableEq

structure SubmitOk where
  attempt : Attempt
  rank : Nat
  questionResults : List (String × QResult)
deriving DecidableEq

inductive SubmitResult where
  | ok (r : SubmitOk)
  | noActiveAttempt
  | quizNotFound
deriving DecidableEq

def SubmitResult.isOk : SubmitResult → Bool
  | .ok _ => true
  | _ => false

/-- POST `/:quizId/start`: return the existing unsubmitted attempt unchanged if
one exists; otherwise check existence and the active flag and create a fresh
attempt with a `totalMarks` snapshot. -/
def startAttempt (db : DB) (quizId userId : String) (now : Nat) : StartResult × DB :=
  match findActiveAttempt db quizId userId with
  | some existing => (.ok existing, db)
  | none =>
    match findQuiz db quizId with
    | none => (.quizNotFound, db)
    | some quiz =>
      if quiz.isActive then
        let attempt : Attempt :=
          { id := db.nextAttemptId, quizId := quizId, userId := userId, score := 0,
            totalMarks := quiz.totalMarks, percentage := 0, startedAt := now,
            submittedAt := none, rank := none, details := [] }
        (.ok attempt,
         { db with attempts := db.attempts ++ [attempt], nextAttemptId := db.nextAttemptId + 1 })
      else (.quizInactive, db)

/-- The field update applied to the active attempt on submit: score, percentage
(`quiz.totalMarks > 0 ? (score / quiz.totalMarks) * 100 : 0`), submit timestamp
and the `details` blob. -/
def submittedRow (quiz : Quiz) (answers : List (String × String)) (now : Nat)
    (a : Attempt) : Attempt :=
  let scored := scoreQuiz quiz.questions answers
  let percentage : ℚ :=
    if 0 < quiz.totalMarks then ((scored.1 : ℚ) / (quiz.totalMarks : ℚ)) * 100 else 0
  { a with score := scored.1, percentage := percentage, submittedAt := some now,
           details := scored.2 }

/-- The rank write (`data: { rank }`). -/
def setRank (r : Nat) (a : Attempt) : Attempt := { a with rank := some r }

/-- The store right after the submit handler's first `update`: the active
attempt's row replaced by its Submitted version. -/
def submitDb1 (db : DB) (attemptId : Nat) (quiz : Quiz) (answers : List (String × String))
    (now : Nat) : DB :=
  { db with attempts := updateAttemptIn db.attempts attemptId (submittedRow quiz answers now) }

/-- The rank the submit handler computes for the new attempt: its 1-based
position in the score-descending order of the quiz's Submitted attempts
(`findIndex` returns -1 when absent, which the `+ 1` turns into rank 0). -/
def submitRank (db : DB) (quizId : String) (attempt : Attempt) (quiz : Quiz)
    (answers : List (String × String)) (now : Nat) : Nat :=
  let ua := submittedRow quiz answers now attempt
  let allAttempts := sortBy ltScore (submittedFor (submitDb1 db attempt.id quiz answers now) quizId)
  let j := allAttempts.findIdx (fun a => a.id == ua.id)
  if j = allAttempts.length then 0 else j + 1

/-- Body of the submit handler once the active attempt and quiz are in hand:
write the Submitted row, compute the new attempt's rank, write that rank on the
new attempt only, refresh the analytics row, and respond with the updated
attempt, rank and per-question results. -/
def submitPipeline (db : DB) (quizId : String) (attempt : Attempt) (quiz : Quiz)
    (answers : List (String × String)) (now : Nat) : SubmitResult × DB :=
  let updatedAttempt := submittedRow quiz answers now attempt
  let db1 := submitDb1 db attempt.id quiz answers now
  let rank := submitRank db quizId attempt quiz answers now
  let db2 : DB :=
    { db1 with attempts := updateAttemptIn db1.attempts updatedAttempt.id (setRank rank) }
  let db3 := updateQuizAnalytics db2 quizId
  (.ok ⟨updatedAttempt, rank, (scoreQuiz quiz.questions answers).2⟩, db3)

/-- POST `/:quizId/submit`: score the active attempt against the quiz's current
question set, mark it Submitted, compute the new attempt's rank as its position
in the score-descending order of the quiz's Submitted attempts (only the new
attempt's rank is written), then refresh the analytics row. -/
def submitAttempt (db : DB) (quizId userId : String) (answers : List (String × String))
    (now : Nat) : SubmitResult × DB :=
  match findActiveAttempt db quizId userId with
  | none => (.noActiveAttempt, db)
  | some attempt =>
    match findQuiz db quizId with
    | none => (.quizNotFound, db)
    | some quiz => submitPipeline db quizId attempt quiz answers now

structure BoardEntry where
  id : Nat
  rank : Nat
  userId : String
  score : Nat
  totalMarks : Nat
  percentage : ℚ
  submittedAt : Option Nat
deriving DecidableEq

structure UserPosition where
  rank : Nat
  score : Nat
  totalMarks : Nat
  percentage : ℚ
  submittedAt : Option Nat
deriving DecidableEq

structure BoardResponse where
  entries : List BoardEntry
  userPosition : Option UserPosition
  totalAttempts : Nat
deriving DecidableEq

/-- `attempts.map((attempt, index) => ...)`: 1-based positions from index. -/
def mkEntries : Nat → List Attempt → List BoardEntry
  | _, [] => []
  | i, a :: rest =>
      ⟨a.id, i + 1, a.userId, a.score, a.totalMarks, a.percentage, a.submittedAt⟩ ::
        mkEntries (i + 1) rest

/-- GET `/:quizId/leaderboard`: a read-only projection of the Submitted set
ordered by percentage descending, then submit time ascending. -/
def getLeaderboard (db : DB) (quizId : String) (userId : Option String) : Option BoardResponse :=
  let attempts := sortBy ltBoard (submittedFor db quizId)
  match findQuiz db quizId with
  | none => none
  | some _ =>
    let leaderboard := mkEntries 0 attempts
    let userPosition :=
      match userId with
      | none => none
      | some uid =>
        match attempts.find? (fun a => a.userId == uid) with
        | none => none
        | some ua =>
          some ⟨attempts.findIdx (fun a => a.userId == uid) + 1, ua.score, ua.totalMarks,
                ua.percentage, ua.submittedAt⟩
    some ⟨leaderboard, userPosition, attempts.length⟩

/-- POST `/api/quiz-exams` with the fields of `createQuizExamSchema` that the
model tracks; note the schema accepts `totalMarks` from the payload. -/
def createQuizExam (db : DB) (id title : String) (totalMarks durationMinutes : Nat)
    (isActive : Bool) : DB :=
  { db with quizzes := db.quizzes ++ [⟨id, title, totalMarks, durationMinutes, isActive, []⟩] }

/-- Partial payload of PUT `/api/quiz-exams/:id` (`updateQuizExamSchema`);
`totalMarks` is among the updatable fields. -/
structure UpdateQuizData where
  title : Option String := none
  totalMarks : Option Nat := none
  durationMinutes : Option Nat := none
  isActive : Option Bool := none
deriving DecidableEq

def applyQuizUpdate (d : UpdateQuizData) (q : Quiz) : Quiz :=
  { q with title := d.title.getD q.title, totalMarks := d.totalMarks.getD q.totalMarks,
           durationMinutes := d.durationMinutes.getD q.durationMinutes,
           isActive := d.isActive.getD q.isActive }

/-- PUT `/api/quiz-exams/:id`: apply the partial payload to the stored row. -/
def updateQuizExam (db : DB) (quizId : String) (d : UpdateQuizData) : Option DB :=
  match findQuiz db quizId with
  | none => none
  | some _ =>
    some { db with quizzes :=
      db.quizzes.map (fun q => if q.id == quizId then applyQuizUpdate d q else q) }

/-- `quiz.questions.reduce((sum, q) => sum + q.marks, 0)`. -/
def computeTotalMarks (questions : List Question) : Nat :=
  (questions.map (fun q => q.marks)).sum

/-- POST `/:quizId/questions`: insert the question, then recompute and store the
quiz's `totalMarks` as the sum of its questions' marks. -/
def addQuestion (db : DB) (quizId : String) (q : Question) : Option DB :=
  match findQuiz db quizId with
  | none => none
  | some quiz =>
    let newQuestions := quiz.questions ++ [q]
    some { db with quizzes := db.quizzes.map (fun z =>
      if z.id == quizId then
        { z with questions := newQuestions, totalMarks := computeTotalMarks newQuestions }
      else z) }

/-- Analytics row currently stored for a quiz. -/
def analyticsFor (db : DB) (quizId : String) : Option Analytics :=
  getKey db.analytics quizId

/-- Persisted rank of an attempt row. -/
def storedRank (db : DB) (attemptId : Nat) : Option Nat :=
  (db.attempts.find? (fun a => a.id == attemptId)).bind (fun a => a.rank)

/-- Persisted rank values of a quiz's Submitted attempts, in storage order. -/
def submittedRanks (db : DB) (quizId : String) : List (Option Nat) :=
  (submittedFor db quizId).map (fun a => a.rank)

/-- Rank field of a successful submit response. -/
def resultRank (r : SubmitResult) : Option Nat :=
  match r with
  | .ok s => some s.rank
  | _ => none

/-- Question set currently stored for a quiz. -/
def questionsOf (db : DB) (quizId : String) : Option (List Question) :=
  (findQuiz db quizId).map (fun q => q.questions)

/-- Rank served for an attempt by the leaderboard endpoint. -/
def servedRank (db : DB) (quizId : String) (attemptId : Nat) : Option Nat :=
  (getLeaderboard db quizId none).bind
    (fun r => (r.entries.find? (fun e => e.id == attemptId)).map (fun e => e.rank))

/-- Stored `totalMarks` field of a quiz. -/
def totalMarksOf (db : DB) (quizId : String) : Option Nat :=
  (findQuiz db quizId).map (fun q => q.totalMarks)

/-- Sum of the marks of a quiz's questions. -/
def questionMarksSum (db : DB) (quizId : String) : Option Nat :=
  (findQuiz db quizId).map (fun q => computeTotalMarks q.questions)

/-- Spec 4.2 reference score: sum over the exam's questions of the marks awarded
by exact, case-sensitive comparison of the submitted answer. -/
def specScore (questions : List Question) (answers : List (String × String)) : Nat :=
  (questions.map (fun q => if getKey answers q.id = some q.correctAnswer then q.marks else 0)).sum

/-- Spec 4.2 reference percentage: `100 * score / totalMarks` when
`totalMarks > 0`, else 0. -/
def specPercentage (totalMarks score : Nat) : ℚ :=
  if 0 < totalMarks then 100 * (score : ℚ) / (totalMarks : ℚ) else 0

/-- Spec 4.2 reference per-question record. -/
def specResult (q : Question) (answers : List (String × String)) : QResult :=
  { userAnswer := getKey answers q.id,
    correctAnswer := q.correctAnswer,
    isCorrect := decide (getKey answers q.id = some q.correctAnswer),
    marks := if getKey answers q.id = some q.correctAnswer then q.marks else 0 }

/-- Claim C2's reference ordering: percentage descending, ties broken by the
earlier submit timestamp. -/
def claimLt (a b : Attempt) : Bool :=
  decide (b.percentage < a.percentage) ||
    (decide (a.percentage = b.percentage) && decide (a.submittedAt.getD 0 < b.submittedAt.getD 0))

/-- Claim C2's reference rank: 1-based position in the `claimLt` total order. -/
def claimRank (attempts : List Attempt) (attemptId : Nat) : Nat :=
  (sortBy claimLt attempts).findIdx (fun a => a.id == attemptId) + 1

/-- Total wrapper around `addQuestion` for building concrete states. -/
def addQuestionD (db : DB) (quizId : String) (q : Question) : DB :=
  (addQuestion db quizId q).getD db

/-- Total wrapper around `updateQuizExam` for building concrete states. -/
def updateQuizExamD (db : DB) (quizId : String) (d : UpdateQuizData) : DB :=
  (updateQuizExam db quizId d).getD db

/-- Empty store. -/
def db0 : DB := ⟨[], [], [], 0⟩

/-- One quiz `qz`, created active with the schema's default `totalMarks := 0`. -/
def dbA1 : DB := createQuizExam db0 "qz" "Quiz" 0 30 true

/-- Question `q1` (5 marks, answer `A`) added; `totalMarks` recomputed to 5. -/
def dbA2 : DB := addQuestionD dbA1 "qz" ⟨"q1", "A", 5⟩

/-- Learner `u1` starts at t=10 (attempt 0). -/
def dbA3 : DB := (startAttempt dbA2 "qz" "u1" 10).2

/-- Learner `u1` submits the correct answer at t=20: score 5, percentage 100. -/
def dbA4 : DB := (submitAttempt dbA3 "qz" "u1" [("q1", "A")] 20).2

/-- Question `q2` (10 marks, answer `B`) added; `totalMarks` recomputed to 15. -/
def dbA5 : DB := addQuestionD dbA4 "qz" ⟨"q2", "B", 10⟩

/-- Learner `u2` starts at t=30 (attempt 1). -/
def dbA6 : DB := (startAttempt dbA5 "qz" "u2" 30).2

/-- Learner `u2` submits only `q2` at t=40: score 10, percentage 200/3. -/
def dbA7 : DB := (submitAttempt dbA6 "qz" "u2" [("q2", "B")] 40).2

/-- PUT on the quiz of `dbA2` setting `totalMarks` to 42 directly. -/
def dbB : DB := updateQuizExamD dbA2 "qz" { totalMarks := some 42 }

/-- The quiz of `dbA3` deactivated while `u1` holds an Active attempt. -/
def dbC : DB := updateQuizExamD dbA3 "qz" { isActive := some false }

/-- The Active attempt created for `u1` in `dbA3`. -/
def attA3 : Attempt :=
  ⟨0, "qz", "u1", 0, 5, 0, 10, none, none, []⟩

/-- The quiz row stored in `dbA2` and `dbA3`. -/
def quizA2 : Quiz :=
  ⟨"qz", "Quiz", 5, 30, true, [⟨"q1", "A", 5⟩]⟩

/-- The response of `u1`'s submission (`dbA3` to `dbA4`). -/
def resA4 : SubmitOk :=
  ⟨⟨0, "qz", "u1", 5, 5, 100, 10, some 20, none, [("q1", ⟨some "A", "A", true, 5⟩)]⟩, 1,
    [("q1", ⟨some "A", "A", true, 5⟩)]⟩

/-- The leaderboard response served in state `dbA7`. -/
def respA7 : BoardResponse :=
  ⟨[⟨0, 1, "u1", 5, 5, 100, some 20⟩, ⟨1, 2, "u2", 10, 15, 200 / 3, some 40⟩], none, 2⟩

/-- C2 counterexample: in state `dbA6`, learner `u2` submits to quiz `qz` and is
assigned rank 1 (the ordering the code uses is raw score descending, and `u2`
has the highest score), while the claim's reference order — percentage
descending with the earlier submit time breaking ties — puts that attempt at
position 2, because `u1` holds percentage 100 against `u2`'s 200/3. -/
theorem c2_rank_order_counterexample :
    resultRank (submitAttempt dbA6 "qz" "u2" [("q2", "B")] 40).1 = some 1 ∧
      claimRank (submittedFor dbA7 "qz") 1 = 2 := by
  exact ⟨by with_unfolding_all decide, by with_unfolding_all decide⟩

/-- C3 counterexample: after `u2`'s submission, quiz `qz` has two Submitted
attempts whose persisted ranks are both 1 — the rank write touches only the
newly submitted attempt, so the persisted ranks are not a bijection onto
`{1, 2}` (rank 1 is shared and rank 2 is missing). -/
theorem c3_rank_bijection_counterexample :
    submittedRanks dbA7 "qz" = [some 1, some 1] ∧ (submittedFor dbA7 "qz").length = 2 := by
  exact ⟨by with_unfolding_all decide, by with_unfolding_all decide⟩

/-- C6 counterexample: after `u2`'s submission the stored analytics row of quiz
`qz` has `averageScore = 250/3`, `highestScore = 200/3` and `lowestScore = 100`:
the handler takes highest/lowest from the first/last element of the
score-descending order, and `u2`'s higher raw score (10 of 15) carries a lower
percentage than `u1`'s 5 of 5, so `lowestPercentage ≤ averagePercentage` fails
(and `highestScore` is not the maximum percentage). -/
theorem c6_analytics_counterexample :
    analyticsFor dbA7 "qz" = some ⟨250 / 3, 200 / 3, 100, 2, "u2"⟩ ∧
      ¬ ((100 : ℚ) ≤ 250 / 3) := by
  exact ⟨by with_unfolding_all decide, by with_unfolding_all decide⟩

/-- C7 counterexample: in state `dbA7` the leaderboard serves rank 2 for attempt
1 (`u2`, percentage 200/3, ordered after `u1`'s percentage 100), while the
persisted rank of that attempt is 1 (written from the score-descending order at
submission time). The served and persisted ranks disagree. -/
theorem c7_leaderboard_counterexample :
    servedRank dbA7 "qz" 1 = some 2 ∧ storedRank dbA7 1 = some 1 := by
  exact ⟨by with_unfolding_all decide, by with_unfolding_all decide⟩

/-- C8 counterexample: PUT `/api/quiz-exams/:id` with `totalMarks := 42` on the
quiz of `dbA2` (whose single question carries 5 marks) stores `totalMarks = 42`
while leaving the question set unchanged — the field is independently settable
through the normal update operation. -/
theorem c8_totalmarks_counterexample :
    totalMarksOf dbA2 "qz" = some 5 ∧ totalMarksOf dbB "qz" = some 42 ∧
      questionsOf dbB "qz" = questionsOf dbA2 "qz" := by
  exact ⟨by with_unfolding_all decide, by with_unfolding_all decide, by with_unfolding_all decide⟩

/-! Helper lemmas about the embedded operations. -/

theorem updateQuizAnalytics_attempts (db : DB) (quizId : String) :
    (updateQuizAnalytics db quizId).attempts = db.attempts := by
  unfold updateQuizAnalytics
  split <;> rfl

theorem submit_ok_elim {db : DB} {quizId userId : String}
    {answers : List (String × String)} {now : Nat} {res : SubmitOk} {db' : DB}
    (h : submitAttempt db quizId userId answers now = (.ok res, db')) :
    ∃ att quiz, findActiveAttempt db quizId userId = some att ∧
      findQuiz db quizId = some quiz ∧
      submitPipeline db quizId att quiz answers now = (.ok res, db') := by
  unfold submitAttempt at h
  cases hfa : findActiveAttempt db quizId userId with
  | none => rw [hfa] at h; simp at h
  | some att =>
    rw [hfa] at h
    cases hq : findQuiz db quizId with
    | none => rw [hq] at h; simp at h
    | some quiz => rw [hq] at h; exact ⟨att, quiz, rfl, rfl, h⟩

/-- C5: startAttempt is idempotent while an attempt is Active: a second call
for the same (exam, learner) pair, at any later time and without an intervening
submit, returns the very same attempt row and leaves the store unchanged — no
new row is created and the start timestamp is not reset. -/
theorem c5_start_idempotent (db : DB) (quizId userId : String) (t t' : Nat)
    (a : Attempt) (db1 : DB)
    (h : startAttempt db quizId userId t = (.ok a, db1)) :
    startAttempt db1 quizId userId t' = (.ok a, db1) := by
  unfold startAttempt at h
  cases hfa : findActiveAttempt db quizId userId with
  | some e =>
    rw [hfa] at h
    obtain ⟨h1, h2⟩ := Prod.mk.injEq .. ▸ h
    injection h1 with h1
    subst h1; subst h2
    unfold startAttempt
    rw [hfa]
  | none =>
    rw [hfa] at h
    cases hq : findQuiz db quizId with
    | none => rw [hq] at h; simp at h
    | some quiz =>
      rw [hq] at h
      by_cases hact : quiz.isActive = true
      · simp only [hact, if_true] at h
        obtain ⟨h1, h2⟩ := Prod.mk.injEq .. ▸ h
        injection h1 with h1
        subst h1
        unfold startAttempt findActiveAttempt
        rw [← h2]
        simp only []
        rw [List.find?_append]
        have hnone : db.attempts.find? (activePred quizId userId) = none := hfa
        rw [hnone]
        simp [activePred]
      · simp [hact] at h

/-- C5 witness: in `dbA2`, learner `u1` starts at t=10 obtaining attempt
`attA3`; a second start at t=99 returns the same attempt and state. -/
theorem c5_start_idempotent_witness :
    startAttempt dbA2 "qz" "u1" 10 = (.ok attA3, dbA3) ∧
      startAttempt dbA3 "qz" "u1" 99 = (.ok attA3, dbA3) := by
  refine ⟨by with_unfolding_all decide, ?_⟩
  exact c5_start_idempotent dbA2 "qz" "u1" 10 99 attA3 dbA3 (by with_unfolding_all decide)

/-- C10: the submit handler never consults the exam's active flag — a learner
holding an Active attempt on an existing quiz can submit successfully even when
`isActive` is false; and the start handler returns an existing Active attempt
before its NotFound/InactiveExam checks, so deactivation does not block a
learner who already started. -/
theorem c10_lifecycle_ignores_active_flag (db : DB) (quizId userId : String)
    (answers : List (String × String)) (t t' : Nat) (a : Attempt) (quiz : Quiz)
    (hact : findActiveAttempt db quizId userId = some a)
    (hq : findQuiz db quizId = some quiz) (_hflag : quiz.isActive = false) :
    (submitAttempt db quizId userId answers t).1.isOk = true ∧
      startAttempt db quizId userId t' = (.ok a, db) := by
  constructor
  · unfold submitAttempt
    rw [hact, hq]
    rfl
  · unfold startAttempt
    rw [hact]

theorem mem_updateAttemptIn {l : List Attempt} {i : Nat} {f : Attempt → Attempt} {x : Attempt}
    (hx : x ∈ updateAttemptIn l i f) :
    ∃ b ∈ l, x = if (b.id == i) = true then f b else b := by
  simp only [updateAttemptIn, List.mem_map] at hx
  obtain ⟨b, hb, hbe⟩ := hx
  exact ⟨b, hb, hbe.symm⟩

theorem mem_attempts_of_submitPipeline_eq {db : DB} {quizId : String} {att : Attempt}
    {quiz : Quiz} {answers : List (String × String)} {now : Nat} {res : SubmitOk} {db' : DB}
    (hp : submitPipeline db quizId att quiz answers now = (.ok res, db')) :
    db'.attempts =
      updateAttemptIn (updateAttemptIn db.attempts att.id (submittedRow quiz answers now))
        (submittedRow quiz answers now att).id
        (setRank (submitRank db quizId att quiz answers now)) := by
  have h2 : (submitPipeline db quizId att quiz answers now).2 = db' := by rw [hp]
  rw [← h2]
  simp only [submitPipeline]
  rw [updateQuizAnalytics_attempts]
  rfl

/-- C4: a second submit for the same (exam, learner) pair after a successful
one fails with NoActiveAttempt and leaves the store exactly as the first
submission left it (scores, percentages, details and ranks untouched); the
hypothesis that active attempts of the pair share one row id reflects the
at-most-one-Active invariant the start handler maintains. -/
theorem c4_double_submit_rejected (db : DB) (quizId userId : String)
    (answers answers2 : List (String × String)) (t t2 : Nat) (res : SubmitOk) (db1 : DB)
    (huniq : ∀ b1 ∈ db.attempts, ∀ b2 ∈ db.attempts,
      activePred quizId userId b1 = true → activePred quizId userId b2 = true → b1.id = b2.id)
    (h : submitAttempt db quizId userId answers t = (.ok res, db1)) :
    submitAttempt db1 quizId userId answers2 t2 = (.noActiveAttempt, db1) := by
  obtain ⟨att, quiz, hfa, hq, hp⟩ := submit_ok_elim h
  have hmem : att ∈ db.attempts := List.mem_of_find?_eq_some hfa
  have hpa : activePred quizId userId att = true := List.find?_some hfa
  have hatts := mem_attempts_of_submitPipeline_eq hp
  have hnone : findActiveAttempt db1 quizId userId = none := by
    unfold findActiveAttempt
    rw [hatts, List.find?_eq_none]
    intro x hx
    obtain ⟨a, ha, hxa⟩ := mem_updateAttemptIn hx
    obtain ⟨b, hb, hab⟩ := mem_updateAttemptIn ha
    by_cases hid : (b.id == att.id) = true
    · rw [if_pos hid] at hab
      have hxs : x.submittedAt = some t := by
        rw [hxa, hab]
        split <;> rfl
      simp [activePred, hxs]
    · rw [if_neg hid] at hab
      subst hab
      have hua : (submittedRow quiz answers t att).id = att.id := rfl
      rw [hua, if_neg hid] at hxa
      subst hxa
      intro hactb
      exact hid (by simp [huniq x hb att hmem hactb hpa])
  unfold submitAttempt
  rw [hnone]

/-- C4 witness: `u1` submits successfully in `dbA3`; the repeated submit on the
resulting state `dbA4` is rejected with NoActiveAttempt and leaves `dbA4`
unchanged. -/
theorem c4_double_submit_witness :
    (∀ b1 ∈ dbA3.attempts, ∀ b2 ∈ dbA3.attempts,
      activePred "qz" "u1" b1 = true → activePred "qz" "u1" b2 = true → b1.id = b2.id) ∧
      submitAttempt dbA3 "qz" "u1" [("q1", "A")] 20 = (.ok resA4, dbA4) ∧
      submitAttempt dbA4 "qz" "u1" [("q1", "A")] 50 = (.noActiveAttempt, dbA4) := by
  refine ⟨by with_unfolding_all decide, by with_unfolding_all decide, ?_⟩
  exact c4_double_submit_rejected dbA3 "qz" "u1" [("q1", "A")] [("q1", "A")] 20 50 resA4 dbA4
    (by with_unfolding_all decide) (by with_unfolding_all decide)

theorem answerCorrect_eq (o : Option String) (c : String) :
    answerCorrect o c = decide (o = some c) := by
  cases o with
  | none => simp [answerCorrect]
  | some s =>
    by_cases h : s = c <;> simp [answerCorrect, h]

theorem getKey_setKey_self {β : Type} (k : String) (v : β) (l : List (String × β)) :
    getKey (setKey k v l) k = some v := by
  induction l with
  | nil => simp [setKey, getKey]
  | cons p rest ih =>
    obtain ⟨k', v'⟩ := p
    by_cases h : (k' == k) = true
    · simp [setKey, h, getKey]
    · simp [setKey, h, getKey, ih]

theorem getKey_setKey_ne {β : Type} {k i : String} (h : k ≠ i) (v : β)
    (l : List (String × β)) : getKey (setKey k v l) i = getKey l i := by
  induction l with
  | nil => simp [setKey, getKey, h]
  | cons p rest ih =>
    obtain ⟨k', v'⟩ := p
    by_cases hk : (k' == k) = true
    · have : k' = k := by simpa using hk
      subst this
      simp [setKey, hk, getKey, h]
    · simp [setKey, hk, getKey, ih]

theorem scoreQuiz_fst (questions : List Question) (answers : List (String × String)) :
    (scoreQuiz questions answers).1 = specScore questions answers := by
  suffices h : ∀ acc : Nat × List (String × QResult),
      (questions.foldl (scoreStep answers) acc).1 = acc.1 + specScore questions answers by
    simpa [scoreQuiz] using h (0, [])
  induction questions with
  | nil => intro acc; simp [specScore]
  | cons q rest ih =>
    intro acc
    rw [List.foldl_cons, ih]
    simp only [scoreStep, answerCorrect_eq, decide_eq_true_eq, specScore, List.map_cons,
      List.sum_cons]
    omega

theorem foldl_scoreStep_getKey_stable (answers : List (String × String)) (i : String) :
    ∀ (qs : List Question), (∀ q ∈ qs, q.id ≠ i) → ∀ acc,
      getKey (qs.foldl (scoreStep answers) acc).2 i = getKey acc.2 i
  | [], _, _ => rfl
  | q :: rest, hni, acc => by
    rw [List.foldl_cons,
      foldl_scoreStep_getKey_stable answers i rest
        (fun x hx => hni x (List.mem_cons_of_mem q hx)) _]
    exact getKey_setKey_ne (hni q (List.mem_cons_self q rest)) _ _

theorem getKey_scoreQuiz_foldl (answers : List (String × String)) :
    ∀ (qs : List Question) (q : Question), q ∈ qs → (qs.map (fun x => x.id)).Nodup →
      ∀ acc, getKey (qs.foldl (scoreStep answers) acc).2 q.id = some (specResult q answers)
  | [], q, hmem, _, _ => absurd hmem (List.not_mem_nil q)
  | q0 :: rest, q, hmem, hnd, acc => by
    rw [List.map_cons, List.nodup_cons] at hnd
    rw [List.foldl_cons]
    rcases List.mem_cons.1 hmem with rfl | hmem'
    · have hni : ∀ x ∈ rest, x.id ≠ q.id := by
        intro x hx heq
        exact hnd.1 (heq ▸ List.mem_map_of_mem (fun z => z.id) hx)
      rw [foldl_scoreStep_getKey_stable answers q.id rest hni]
      show getKey (setKey q.id _ acc.2) q.id = _
      rw [getKey_setKey_self]
      simp [specResult, answerCorrect_eq, decide_eq_true_eq]
    · exact getKey_scoreQuiz_foldl answers rest q hmem' hnd.2 _

theorem specScore_extra_key (qs : List Question) (answers : List (String × String))
    (k v : String) (hk : ∀ q ∈ qs, q.id ≠ k) :
    specScore qs ((k, v) :: answers) = specScore qs answers := by
  unfold specScore
  refine congrArg List.sum (List.map_congr_left ?_)
  intro q hq
  have : (k == q.id) = false := by
    simp only [beq_eq_false_iff_ne, ne_eq]
    exact fun he => hk q hq he.symm
  simp [getKey, this]

/-- C1: when a submit finds an active attempt and the quiz, the scoring result
matches the reference definition: the stored score is the sum, over the exam's
questions, of the marks of those whose recorded answer equals the correct
answer under exact case-sensitive string equality; the percentage is
`100 * score / totalMarks` when totalMarks is positive and 0 otherwise; each
question's detail records the submitted-or-absent answer, the correct answer,
the comparison verdict and the awarded marks (0 when incorrect or absent); and
answer keys that are not question identifiers of the exam contribute nothing to
the score. -/
theorem c1_scoring_matches_spec (db : DB) (quizId userId : String)
    (answers : List (String × String)) (now : Nat) (att : Attempt) (quiz : Quiz)
    (hfa : findActiveAttempt db quizId userId = some att)
    (hq : findQuiz db quizId = some quiz)
    (hnd : (quiz.questions.map (fun q => q.id)).Nodup) :
    ∃ res db', submitAttempt db quizId userId answers now = (.ok res, db') ∧
      res.attempt.score = specScore quiz.questions answers ∧
      res.attempt.percentage = specPercentage quiz.totalMarks (specScore quiz.questions answers) ∧
      (∀ q ∈ quiz.questions, getKey res.questionResults q.id = some (specResult q answers)) ∧
      (∀ k v, (∀ q ∈ quiz.questions, q.id ≠ k) →
        specScore quiz.questions ((k, v) :: answers) = specScore quiz.questions answers) := by
  refine ⟨⟨submittedRow quiz answers now att, submitRank db quizId att quiz answers now,
    (scoreQuiz quiz.questions answers).2⟩, (submitPipeline db quizId att quiz answers now).2,
    ?_, ?_, ?_, ?_, ?_⟩
  · unfold submitAttempt
    rw [hfa, hq]
    rfl
  · show (submittedRow quiz answers now att).score = _
    show (scoreQuiz quiz.questions answers).1 = _
    exact scoreQuiz_fst _ _
  · show (submittedRow quiz answers now att).percentage = _
    show (if 0 < quiz.totalMarks then
        (((scoreQuiz quiz.questions answers).1 : ℚ) / (quiz.totalMarks : ℚ)) * 100 else 0) = _
    rw [scoreQuiz_fst, specPercentage]
    by_cases ht : 0 < quiz.totalMarks
    · rw [if_pos ht, if_pos ht]
      ring
    · rw [if_neg ht, if_neg ht]
  · intro q hmem
    exact getKey_scoreQuiz_foldl answers quiz.questions q hmem hnd _
  · intro k v hk
    exact specScore_extra_key quiz.questions answers k v hk

/-- C1 witness: `u1` submits `[("q1", "A")]` in `dbA3` against the quiz with a
single 5-mark question with correct answer `A`; the scoring conclusion holds
there. -/
theorem c1_scoring_witness :
    findActiveAttempt dbA3 "qz" "u1" = some attA3 ∧ findQuiz dbA3 "qz" = some quizA2 ∧
      (quizA2.questions.map (fun q => q.id)).Nodup ∧
      (∃ res db', submitAttempt dbA3 "qz" "u1" [("q1", "A")] 20 = (.ok res, db') ∧
        res.attempt.score = specScore quizA2.questions [("q1", "A")] ∧
        res.attempt.percentage =
          specPercentage quizA2.totalMarks (specScore quizA2.questions [("q1", "A")]) ∧
        (∀ q ∈ quizA2.questions,
          getKey res.questionResults q.id = some (specResult q [("q1", "A")])) ∧
        (∀ k v, (∀ q ∈ quizA2.questions, q.id ≠ k) →
          specScore quizA2.questions ((k, v) :: [("q1", "A")]) =
            specScore quizA2.questions [("q1", "A")])) := by
  refine ⟨by with_unfolding_all decide, by with_unfolding_all decide,
    by with_unfolding_all decide, ?_⟩
  exact c1_scoring_matches_spec dbA3 "qz" "u1" [("q1", "A")] 20 attA3 quizA2
    (by with_unfolding_all decide) (by with_unfolding_all decide)
    (by with_unfolding_all decide)

theorem find?_congr_fun {α : Type} {p q : α → Bool} (h : ∀ a, p a = q a) :
    ∀ l : List α, l.find? p = l.find? q
  | [] => rfl
  | x :: xs => by
    rw [List.find?, List.find?, h x, find?_congr_fun h xs]

theorem insertBy_perm {α : Type} (lt : α → α → Bool) (x : α) (l : List α) :
    List.Perm (insertBy lt x l) (x :: l) := by
  induction l with
  | nil => exact List.Perm.refl _
  | cons y ys ih =>
    by_cases h : lt y x = true
    · rw [insertBy, if_pos h]
      exact (ih.cons y).trans (List.Perm.swap x y ys)
    · rw [insertBy, if_neg h]

theorem sortBy_perm {α : Type} (lt : α → α → Bool) (l : List α) :
    List.Perm (sortBy lt l) l := by
  induction l with
  | nil => exact List.Perm.refl _
  | cons x xs ih => exact (insertBy_perm lt x (sortBy lt xs)).trans (ih.cons x)

theorem insertBy_pairwise {α : Type} (lt : α → α → Bool)
    (hasym : ∀ a b, lt a b = true → lt b a = false)
    (htrans : ∀ a b c, lt b a = false → lt c b = false → lt c a = false)
    (x : α) : ∀ (l : List α), l.Pairwise (fun a b => lt b a = false) →
      (insertBy lt x l).Pairwise (fun a b => lt b a = false)
  | [], _ => by simp [insertBy]
  | y :: ys, h => by
    rw [List.pairwise_cons] at h
    obtain ⟨hy, hys⟩ := h
    by_cases hlt : lt y x = true
    · rw [insertBy, if_pos hlt, List.pairwise_cons]
      refine ⟨?_, insertBy_pairwise lt hasym htrans x ys hys⟩
      intro z hz
      rcases List.mem_cons.1 ((insertBy_perm lt x ys).mem_iff.1 hz) with rfl | hzys
      · exact hasym y z hlt
      · exact hy z hzys
    · have hxf : lt y x = false := by revert hlt; cases lt y x <;> simp
      rw [insertBy, if_neg hlt, List.pairwise_cons]
      constructor
      · intro z hz
        rcases List.mem_cons.1 hz with rfl | hzys
        · exact hxf
        · exact htrans x y z hxf (hy z hzys)
      · exact List.pairwise_cons.2 ⟨hy, hys⟩

theorem sortBy_pairwise {α : Type} (lt : α → α → Bool)
    (hasym : ∀ a b, lt a b = true → lt b a = false)
    (htrans : ∀ a b c, lt b a = false → lt c b = false → lt c a = false) (l : List α) :
    (sortBy lt l).Pairwise (fun a b => lt b a = false) := by
  induction l with
  | nil => exact List.Pairwise.nil
  | cons x xs ih => exact insertBy_pairwise lt hasym htrans x _ ih

theorem ltScore_asym (a b : Attempt) (h : ltScore a b = true) : ltScore b a = false := by
  simp only [ltScore, decide_eq_true_eq] at h
  simp only [ltScore, decide_eq_false_iff_not]
  omega

theorem ltScore_trans (a b c : Attempt) (h1 : ltScore b a = false) (h2 : ltScore c b = false) :
    ltScore c a = false := by
  simp only [ltScore, decide_eq_false_iff_not] at h1 h2 ⊢
  omega

theorem ltBoard_asym (a b : Attempt) (h : ltBoard a b = true) : ltBoard b a = false := by
  simp only [ltBoard, Bool.or_eq_true, Bool.and_eq_true, decide_eq_true_eq] at h
  simp only [ltBoard, Bool.or_eq_false_iff, Bool.and_eq_false_iff, decide_eq_false_iff_not]
  rcases h with h1 | ⟨h1, h2⟩
  · exact ⟨not_lt.2 (le_of_lt h1), Or.inl fun he => absurd h1 (by rw [he]; exact lt_irrefl _)⟩
  · refine ⟨not_lt.2 (le_of_eq h1.symm), Or.inr ?_⟩
    omega

theorem ltBoard_trans (a b c : Attempt) (h1 : ltBoard b a = false) (h2 : ltBoard c b = false) :
    ltBoard c a = false := by
  simp only [ltBoard, Bool.or_eq_false_iff, Bool.and_eq_false_iff,
    decide_eq_false_iff_not] at h1 h2 ⊢
  obtain ⟨h1p, h1t⟩ := h1
  obtain ⟨h2p, h2t⟩ := h2
  have hba : b.percentage ≤ a.percentage := not_lt.1 h1p
  have hcb : c.percentage ≤ b.percentage := not_lt.1 h2p
  refine ⟨not_lt.2 (le_trans hcb hba), ?_⟩
  by_cases hca : c.percentage = a.percentage
  · have hbeq : b.percentage = a.percentage := le_antisymm hba (hca ▸ hcb)
    have hceq : c.percentage = b.percentage := by rw [hca, hbeq]
    rcases h1t with hf | h1t'
    · exact absurd hbeq hf
    rcases h2t with hf | h2t'
    · exact absurd hceq hf
    exact Or.inr (by omega)
  · exact Or.inl hca

theorem activePred_fields {quizId userId : String} {a : Attempt}
    (h : activePred quizId userId a = true) :
    a.quizId = quizId ∧ a.userId = userId ∧ a.submittedAt = none := by
  simp only [activePred, Bool.and_eq_true, beq_iff_eq, Option.isNone_iff_eq_none] at h
  exact ⟨h.1.1, h.1.2, h.2⟩

theorem submittedRow_mem_db1 {db : DB} {quizId userId : String} {att : Attempt}
    (quiz : Quiz) (answers : List (String × String)) (now : Nat)
    (hfa : findActiveAttempt db quizId userId = some att) :
    submittedRow quiz answers now att ∈
      submittedFor (submitDb1 db att.id quiz answers now) quizId := by
  have hmem : att ∈ db.attempts := List.mem_of_find?_eq_some hfa
  have hpa : activePred quizId userId att = true := List.find?_some hfa
  have hquiz : att.quizId = quizId := (activePred_fields hpa).1
  show submittedRow quiz answers now att ∈
    (updateAttemptIn db.attempts att.id (submittedRow quiz answers now)).filter _
  rw [List.mem_filter]
  constructor
  · simp only [updateAttemptIn, List.mem_map]
    exact ⟨att, hmem, by simp⟩
  · have h1 : (submittedRow quiz answers now att).quizId = att.quizId := rfl
    have h2 : (submittedRow quiz answers now att).submittedAt = some now := rfl
    simp [h1, h2, hquiz]

theorem filter_updateAttemptIn_setRank (l : List Attempt) (i r : Nat) (q : String) :
    (updateAttemptIn l i (setRank r)).filter
        (fun a => a.quizId == q && a.submittedAt.isSome) =
      ((l.filter (fun a => a.quizId == q && a.submittedAt.isSome)).map
        (fun a => if (a.id == i) = true then setRank r a else a)) := by
  unfold updateAttemptIn
  rw [List.filter_map]
  refine congrArg _ (List.filter_congr ?_)
  intro a _
  by_cases h : (a.id == i) = true
  · have h2 : a.id = i := by simpa using h
    simp [h2, setRank]
  · have h2 : ¬ a.id = i := by simpa using h
    simp [h2, setRank]

theorem submitPipeline_ok_inv {db : DB} {quizId : String} {att : Attempt} {quiz : Quiz}
    {answers : List (String × String)} {now : Nat} {res : SubmitOk} {db' : DB}
    (hp : submitPipeline db quizId att quiz answers now = (.ok res, db')) :
    res = ⟨submittedRow quiz answers now att, submitRank db quizId att quiz answers now,
      (scoreQuiz quiz.questions answers).2⟩ := by
  have h1 := congrArg Prod.fst hp
  have h2 : SubmitResult.ok ⟨submittedRow quiz answers now att,
      submitRank db quizId att quiz answers now,
      (scoreQuiz quiz.questions answers).2⟩ = SubmitResult.ok res := h1
  injection h2 with h2
  exact h2.symm

theorem submitRank_bounds {db : DB} {quizId userId : String} {att : Attempt}
    (quiz : Quiz) (answers : List (String × String)) (now : Nat)
    (hfa : findActiveAttempt db quizId userId = some att) :
    1 ≤ submitRank db quizId att quiz answers now ∧
      submitRank db quizId att quiz answers now ≤
        (submittedFor (submitDb1 db att.id quiz answers now) quizId).length := by
  simp only [submitRank]
  set L := sortBy ltScore (submittedFor (submitDb1 db att.id quiz answers now) quizId) with hL
  have hmm : submittedRow quiz answers now att ∈ L := by
    rw [hL]
    exact (sortBy_perm ltScore _).mem_iff.2 (submittedRow_mem_db1 quiz answers now hfa)
  have hex : ∃ x ∈ L, (x.id == (submittedRow quiz answers now att).id) = true :=
    ⟨_, hmm, by simp⟩
  have hlt := List.findIdx_lt_length_of_exists hex
  have hlen : L.length = (submittedFor (submitDb1 db att.id quiz answers now) quizId).length := by
    rw [hL]
    exact (sortBy_perm ltScore _).length_eq
  rw [if_neg (Nat.ne_of_lt hlt)]
  omega

theorem submittedFor_final_attempts {db : DB} {quizId : String} {att : Attempt} {quiz : Quiz}
    {answers : List (String × String)} {now : Nat} {res : SubmitOk} {db' : DB}
    (hp : submitPipeline db quizId att quiz answers now = (.ok res, db')) :
    submittedFor db' quizId =
      (submittedFor (submitDb1 db att.id quiz answers now) quizId).map
        (fun a => if (a.id == (submittedRow quiz answers now att).id) = true then
          setRank (submitRank db quizId att quiz answers now) a else a) := by
  have hatts := mem_attempts_of_submitPipeline_eq hp
  show db'.attempts.filter _ = _
  rw [hatts]
  exact filter_updateAttemptIn_setRank _ _ _ _

/-- C3 (amended): the rank assigned to the newly submitted attempt lies in
`{1..n}`, where n is the number of Submitted attempts of the exam after the
submission. (The full-bijection claim fails because the ranks of previously
submitted attempts are never rewritten — see the counterexample.) -/
theorem c3_new_rank_in_range (db : DB) (quizId userId : String)
    (answers : List (String × String)) (now : Nat) (res : SubmitOk) (db' : DB)
    (h : submitAttempt db quizId userId answers now = (.ok res, db')) :
    1 ≤ res.rank ∧ res.rank ≤ (submittedFor db' quizId).length := by
  obtain ⟨att, quiz, hfa, hq, hp⟩ := submit_ok_elim h
  have hres := submitPipeline_ok_inv hp
  have hrank : res.rank = submitRank db quizId att quiz answers now := by rw [hres]
  have hlen : (submittedFor db' quizId).length =
      (submittedFor (submitDb1 db att.id quiz answers now) quizId).length := by
    rw [submittedFor_final_attempts hp, List.length_map]
  rw [hrank, hlen]
  exact submitRank_bounds quiz answers now hfa

/-- C3 witness: `u1`'s submission in `dbA3` receives rank 1, inside `{1..1}`. -/
theorem c3_new_rank_witness :
    submitAttempt dbA3 "qz" "u1" [("q1", "A")] 20 = (.ok resA4, dbA4) ∧
      (1 ≤ resA4.rank ∧ resA4.rank ≤ (submittedFor dbA4 "qz").length) := by
  refine ⟨by with_unfolding_all decide, ?_⟩
  exact c3_new_rank_in_range dbA3 "qz" "u1" [("q1", "A")] 20 resA4 dbA4
    (by with_unfolding_all decide)

theorem findIdx_append_of_none {α : Type} (p : α → Bool) (x : α) (hx : p x = true) :
    ∀ (l₁ l₂ : List α), (∀ a ∈ l₁, p a = false) →
      List.findIdx p (l₁ ++ x :: l₂) = l₁.length
  | [], l₂, _ => by simp [List.findIdx_cons, hx]
  | a :: l₁, l₂, h => by
    rw [List.cons_append, List.findIdx_cons, h a (List.mem_cons_self a l₁)]
    rw [findIdx_append_of_none p x hx l₁ l₂ (fun b hb => h b (List.mem_cons_of_mem a hb))]
    rfl

theorem rank_eq_one_add_higher {S : List Attempt} {x : Attempt}
    (hmem : x ∈ S) (hids : (S.map (fun a => a.id)).Nodup)
    (hsc : S.Pairwise (fun a b => a.score ≠ b.score)) :
    (sortBy ltScore S).findIdx (fun a => a.id == x.id) =
      S.countP (fun a => decide (x.score < a.score)) := by
  have hperm : List.Perm (sortBy ltScore S) S := sortBy_perm ltScore S
  have hmemL : x ∈ sortBy ltScore S := hperm.mem_iff.2 hmem
  obtain ⟨l₁, l₂, hsplit⟩ := List.append_of_mem hmemL
  have hidsL : ((sortBy ltScore S).map (fun a => a.id)).Nodup :=
    (List.Perm.nodup_iff (hperm.map (fun a => a.id))).2 hids
  have hscL : (sortBy ltScore S).Pairwise (fun a b => a.score ≠ b.score) :=
    (List.Perm.pairwise_iff (fun h => Ne.symm h) hperm).2 hsc
  have hsorted := sortBy_pairwise ltScore ltScore_asym ltScore_trans S
  rw [hsplit] at hidsL hscL hsorted hperm ⊢
  rw [List.map_append, List.map_cons] at hidsL
  have hxid : x.id ∉ l₁.map (fun a => a.id) := by
    intro hmemid
    exact (List.nodup_cons.1 (List.nodup_middle.1 hidsL)).1 (List.mem_append_left _ hmemid)
  rw [findIdx_append_of_none (fun a => a.id == x.id) x (by simp) l₁ l₂ ?hfalse]
  case hfalse =>
    intro a ha
    have hne : a.id ≠ x.id := fun he => hxid (he ▸ List.mem_map_of_mem (fun z => z.id) ha)
    exact beq_eq_false_iff_ne.mpr hne
  obtain ⟨hp₁, hp₂, hcross⟩ := List.pairwise_append.1 hsorted
  obtain ⟨hd₁, hd₂, hdcross⟩ := List.pairwise_append.1 hscL
  rw [← hperm.countP_eq, List.countP_append, List.countP_cons]
  have hl₁ : l₁.countP (fun a => decide (x.score < a.score)) = l₁.length := by
    rw [List.countP_eq_length]
    intro a ha
    have h1 : ltScore x a = false := hcross a ha x (List.mem_cons_self x l₂)
    have h2 : a.score ≠ x.score := hdcross a ha x (List.mem_cons_self x l₂)
    simp only [ltScore, decide_eq_false_iff_not] at h1
    simp only [decide_eq_true_eq]
    omega
  have hl₂ : l₂.countP (fun a => decide (x.score < a.score)) = 0 := by
    rw [List.countP_eq_zero]
    intro b hb
    have h1 := (List.pairwise_cons.1 hp₂).1 b hb
    simpa [ltScore] using h1
  have hx0 : (decide (x.score < x.score)) = false := by simp
  rw [hl₁, hl₂, hx0]
  simp

theorem submitRank_count {db : DB} {quizId userId : String} {att : Attempt}
    (quiz : Quiz) (answers : List (String × String)) (now : Nat)
    (hfa : findActiveAttempt db quizId userId = some att)
    (hids : ((submittedFor (submitDb1 db att.id quiz answers now) quizId).map
      (fun a => a.id)).Nodup)
    (hsc : (submittedFor (submitDb1 db att.id quiz answers now) quizId).Pairwise
      (fun a b => a.score ≠ b.score)) :
    submitRank db quizId att quiz answers now =
      1 + (submittedFor (submitDb1 db att.id quiz answers now) quizId).countP
        (fun a => decide ((submittedRow quiz answers now att).score < a.score)) := by
  have hmem1 := submittedRow_mem_db1 quiz answers now hfa
  simp only [submitRank]
  have hkey := rank_eq_one_add_higher hmem1 hids hsc
  have hmemL : submittedRow quiz answers now att ∈
      sortBy ltScore (submittedFor (submitDb1 db att.id quiz answers now) quizId) :=
    (sortBy_perm ltScore _).mem_iff.2 hmem1
  have hlt := List.findIdx_lt_length_of_exists
    (p := fun a => a.id == (submittedRow quiz answers now att).id) ⟨_, hmemL, by simp⟩
  rw [if_neg (Nat.ne_of_lt hlt), hkey]
  omega

/-- C2 (amended): the rank assigned to the submitted attempt is its 1-based
position in the raw-score-descending order of the exam's Submitted attempts
(storage order breaking ties) — when scores are pairwise distinct it equals
1 plus the number of Submitted attempts with a strictly higher score. No
percentage ordering and no submit-time tie-break enters the computation (see
the counterexample for the divergence from the claimed key). -/
theorem c2_rank_by_score_desc (db : DB) (quizId userId : String)
    (answers : List (String × String)) (now : Nat) (res : SubmitOk) (db' : DB)
    (h : submitAttempt db quizId userId answers now = (.ok res, db'))
    (hids : ((submittedFor db' quizId).map (fun a => a.id)).Nodup)
    (hsc : (submittedFor db' quizId).Pairwise (fun a b => a.score ≠ b.score)) :
    res.rank = 1 + (submittedFor db' quizId).countP
      (fun a => decide (res.attempt.score < a.score)) := by
  obtain ⟨att, quiz, hfa, hq, hp⟩ := submit_ok_elim h
  have hres := submitPipeline_ok_inv hp
  have hfin := submittedFor_final_attempts hp
  have hgid : ∀ a : Attempt, ((fun a : Attempt =>
      if (a.id == (submittedRow quiz answers now att).id) = true then
        setRank (submitRank db quizId att quiz answers now) a else a) a).id = a.id := by
    intro a; dsimp only; split <;> rfl
  have hgsc : ∀ a : Attempt, ((fun a : Attempt =>
      if (a.id == (submittedRow quiz answers now att).id) = true then
        setRank (submitRank db quizId att quiz answers now) a else a) a).score = a.score := by
    intro a; dsimp only; split <;> rfl
  rw [hfin] at hids hsc
  have hids1 : ((submittedFor (submitDb1 db att.id quiz answers now) quizId).map
      (fun a => a.id)).Nodup := by
    rw [List.map_map] at hids
    have hmc : (submittedFor (submitDb1 db att.id quiz answers now) quizId).map
        ((fun a : Attempt => a.id) ∘ (fun a : Attempt =>
          if (a.id == (submittedRow quiz answers now att).id) = true then
            setRank (submitRank db quizId att quiz answers now) a else a)) =
        (submittedFor (submitDb1 db att.id quiz answers now) quizId).map
          (fun a : Attempt => a.id) :=
      List.map_congr_left (fun a _ => hgid a)
    rwa [hmc] at hids
  have hsc1 : (submittedFor (submitDb1 db att.id quiz answers now) quizId).Pairwise
      (fun a b => a.score ≠ b.score) := by
    rw [List.pairwise_map] at hsc
    exact hsc.imp (fun hab => by rwa [hgsc, hgsc] at hab)
  have hcnt : ((submittedFor (submitDb1 db att.id quiz answers now) quizId).map
        (fun a : Attempt => if (a.id == (submittedRow quiz answers now att).id) = true then
          setRank (submitRank db quizId att quiz answers now) a else a)).countP
        (fun a => decide (res.attempt.score < a.score)) =
      (submittedFor (submitDb1 db att.id quiz answers now) quizId).countP
        (fun a => decide (res.attempt.score < a.score)) := by
    rw [List.countP_map]
    have hfun : ((fun a : Attempt => decide (res.attempt.score < a.score)) ∘
        (fun a : Attempt => if (a.id == (submittedRow quiz answers now att).id) = true then
          setRank (submitRank db quizId att quiz answers now) a else a)) =
        (fun a : Attempt => decide (res.attempt.score < a.score)) :=
      funext (fun a => by dsimp only [Function.comp]; rw [hgsc a])
    rw [hfun]
  rw [hfin, hcnt]
  have hscore : res.attempt.score = (submittedRow quiz answers now att).score := by rw [hres]
  have hrank : res.rank = submitRank db quizId att quiz answers now := by rw [hres]
  rw [hrank, hscore]
  exact submitRank_count quiz answers now hfa hids1 hsc1

/-- C2 witness: `u1`'s submission in `dbA3` (a single Submitted attempt with a
unique score) is assigned rank 1 = 1 + 0 higher-score attempts. -/
theorem c2_rank_by_score_witness :
    submitAttempt dbA3 "qz" "u1" [("q1", "A")] 20 = (.ok resA4, dbA4) ∧
      ((submittedFor dbA4 "qz").map (fun a => a.id)).Nodup ∧
      (submittedFor dbA4 "qz").Pairwise (fun a b => a.score ≠ b.score) ∧
      resA4.rank = 1 + (submittedFor dbA4 "qz").countP
        (fun a => decide (resA4.attempt.score < a.score)) := by
  refine ⟨by with_unfolding_all decide, by with_unfolding_all decide,
    by with_unfolding_all decide, ?_⟩
  exact c2_rank_by_score_desc dbA3 "qz" "u1" [("q1", "A")] 20 resA4 dbA4
    (by with_unfolding_all decide) (by with_unfolding_all decide)
    (by with_unfolding_all decide)

theorem sorted_head_ge {a0 : Attempt} {rest : List Attempt}
    (hs : (a0 :: rest).Pairwise (fun a b => ltScore b a = false)) :
    ∀ b ∈ a0 :: rest, b.score ≤ a0.score := by
  intro b hb
  rcases List.mem_cons.1 hb with rfl | hb'
  · exact le_refl _
  · have h1 := (List.pairwise_cons.1 hs).1 b hb'
    simp only [ltScore, decide_eq_false_iff_not] at h1
    omega

theorem sorted_getLast_le : ∀ (L : List Attempt) (hne : L ≠ [])
    (_ : L.Pairwise (fun a b => ltScore b a = false)) (b : Attempt), b ∈ L →
      (L.getLast hne).score ≤ b.score
  | [], hne, _, _, _ => absurd rfl hne
  | [a], _, _, b, hb => by
    have hba : b = a := by simpa using hb
    subst hba
    simp [List.getLast]
  | a :: c :: L', hne, hs, b, hb => by
    have hcons : (a :: c :: L').getLast hne =
        (c :: L').getLast (List.cons_ne_nil c L') := List.getLast_cons _
    rcases List.mem_cons.1 hb with rfl | hb'
    · have hlmem : (c :: L').getLast (List.cons_ne_nil c L') ∈ c :: L' :=
        List.getLast_mem _
      have h1 := (List.pairwise_cons.1 hs).1 _ hlmem
      simp only [ltScore, decide_eq_false_iff_not] at h1
      rw [hcons]
      omega
    · rw [hcons]
      exact sorted_getLast_le (c :: L') (List.cons_ne_nil c L')
        (List.pairwise_cons.1 hs).2 b hb'

theorem avg_le_max {l : List ℚ} {m : ℚ} (hne : l ≠ []) (h : ∀ x ∈ l, x ≤ m) :
    l.sum / (l.length : ℚ) ≤ m := by
  have hlen : 0 < (l.length : ℚ) := by
    have hp : 0 < l.length := List.length_pos.2 hne
    exact_mod_cast hp
  rw [div_le_iff₀ hlen]
  have hs := List.sum_le_card_nsmul l m h
  rwa [nsmul_eq_mul, mul_comm] at hs

theorem min_le_avg {l : List ℚ} {m : ℚ} (hne : l ≠ []) (h : ∀ x ∈ l, m ≤ x) :
    m ≤ l.sum / (l.length : ℚ) := by
  have hlen : 0 < (l.length : ℚ) := by
    have hp : 0 < l.length := List.length_pos.2 hne
    exact_mod_cast hp
  rw [le_div_iff₀ hlen]
  have hs := List.card_nsmul_le_sum l m h
  rwa [nsmul_eq_mul, mul_comm] at hs

theorem updateQuizAnalytics_analyticsFor {db : DB} {quizId : String} {a0 : Attempt}
    {rest : List Attempt}
    (hL : sortBy ltScore (submittedFor db quizId) = a0 :: rest) :
    analyticsFor (updateQuizAnalytics db quizId) quizId =
      some ⟨((a0 :: rest).map (fun a => a.percentage)).sum / (((a0 :: rest).length : Nat) : ℚ),
        a0.percentage, ((a0 :: rest).getLast (List.cons_ne_nil a0 rest)).percentage,
        (a0 :: rest).length, a0.userId⟩ := by
  unfold updateQuizAnalytics
  rw [hL]
  exact getKey_setKey_self _ _ _

theorem submit_final_db {db : DB} {quizId : String} {att : Attempt} {quiz : Quiz}
    {answers : List (String × String)} {now : Nat} {res : SubmitOk} {db' : DB}
    (hp : submitPipeline db quizId att quiz answers now = (.ok res, db')) :
    ∃ db2, db' = updateQuizAnalytics db2 quizId ∧
      db2.attempts = updateAttemptIn (submitDb1 db att.id quiz answers now).attempts
        (submittedRow quiz answers now att).id
        (setRank (submitRank db quizId att quiz answers now)) := by
  refine ⟨{ submitDb1 db att.id quiz answers now with attempts := updateAttemptIn (submitDb1 db att.id quiz answers now).attempts (submittedRow quiz answers now att).id (setRank (submitRank db quizId att quiz answers now)) }, ?_, rfl⟩
  exact (congrArg Prod.snd hp).symm

/-- C6 (amended): the analytics fields are recomputed from the full Submitted
set ordered by raw score descending — averageScore is the arithmetic mean of
the percentages, while highestScore/lowestScore are the percentages of the
first/last attempt in that score order (not the max/min percentage). Whenever
percentage is monotone in score over the Submitted set — in particular when all
attempts were scored against the same totalMarks — the stored row satisfies
`lowestScore ≤ averageScore ≤ highestScore`; without monotonicity it can fail
(see the counterexample). -/
theorem c6_analytics_bounds (db : DB) (quizId userId : String)
    (answers : List (String × String)) (now : Nat) (res : SubmitOk) (db' : DB)
    (h : submitAttempt db quizId userId answers now = (.ok res, db'))
    (hmono : ∀ a ∈ submittedFor db' quizId, ∀ b ∈ submittedFor db' quizId,
      a.score ≤ b.score → a.percentage ≤ b.percentage) :
    ∃ A, analyticsFor db' quizId = some A ∧
      A.lowestScore ≤ A.averageScore ∧ A.averageScore ≤ A.highestScore := by
  obtain ⟨att, quiz, hfa, hq, hp⟩ := submit_ok_elim h
  obtain ⟨db2, hdb', hatts⟩ := submit_final_db hp
  have hsub2 : submittedFor db' quizId = submittedFor db2 quizId := by
    rw [hdb']
    show (updateQuizAnalytics db2 quizId).attempts.filter _ = db2.attempts.filter _
    rw [updateQuizAnalytics_attempts]
  have hS2 : submittedFor db2 quizId =
      (submittedFor (submitDb1 db att.id quiz answers now) quizId).map
        (fun a => if (a.id == (submittedRow quiz answers now att).id) = true then
          setRank (submitRank db quizId att quiz answers now) a else a) := by
    show db2.attempts.filter _ = _
    rw [hatts]
    exact filter_updateAttemptIn_setRank _ _ _ _
  have hne2 : submittedFor db2 quizId ≠ [] := by
    rw [hS2]
    intro hnil
    have hmem1 := submittedRow_mem_db1 quiz answers now hfa
    exact absurd (List.mem_map_of_mem _ hmem1) (by rw [hnil]; exact List.not_mem_nil _)
  rw [hsub2] at hmono
  cases hL : sortBy ltScore (submittedFor db2 quizId) with
  | nil =>
    exfalso
    have hperm := sortBy_perm ltScore (submittedFor db2 quizId)
    rw [hL] at hperm
    exact hne2 (hperm.symm.eq_nil)
  | cons a0 rest =>
    have hperm := sortBy_perm ltScore (submittedFor db2 quizId)
    rw [hL] at hperm
    have hsorted := sortBy_pairwise ltScore ltScore_asym ltScore_trans (submittedFor db2 quizId)
    rw [hL] at hsorted
    rw [hdb']
    refine ⟨_, updateQuizAnalytics_analyticsFor hL, ?_, ?_⟩
    · -- lowest ≤ average
      have hlast := sorted_getLast_le (a0 :: rest) (List.cons_ne_nil a0 rest) hsorted
      have hlastmem : (a0 :: rest).getLast (List.cons_ne_nil a0 rest) ∈ a0 :: rest :=
        List.getLast_mem _
      have hmin : ∀ x ∈ (a0 :: rest).map (fun a => a.percentage),
          ((a0 :: rest).getLast (List.cons_ne_nil a0 rest)).percentage ≤ x := by
        intro x hx
        obtain ⟨b, hbL, rfl⟩ := List.mem_map.1 hx
        exact hmono _ (hperm.mem_iff.1 hlastmem) _ (hperm.mem_iff.1 hbL) (hlast b hbL)
      have hres2 := min_le_avg (l := (a0 :: rest).map (fun a => a.percentage))
        (by simp) hmin
      rwa [List.length_map] at hres2
    · -- average ≤ highest
      have hhead := sorted_head_ge hsorted
      have hheadmem : a0 ∈ a0 :: rest := List.mem_cons_self a0 rest
      have hmax : ∀ x ∈ (a0 :: rest).map (fun a => a.percentage), x ≤ a0.percentage := by
        intro x hx
        obtain ⟨b, hbL, rfl⟩ := List.mem_map.1 hx
        exact hmono _ (hperm.mem_iff.1 hbL) _ (hperm.mem_iff.1 hheadmem) (hhead b hbL)
      have hres2 := avg_le_max (l := (a0 :: rest).map (fun a => a.percentage))
        (by simp) hmax
      rwa [List.length_map] at hres2

/-- C6 witness: after `u1`'s lone submission in `dbA3` the monotonicity premise
holds trivially and the stored analytics row satisfies the sandwich bounds. -/
theorem c6_analytics_bounds_witness :
    submitAttempt dbA3 "qz" "u1" [("q1", "A")] 20 = (.ok resA4, dbA4) ∧
      (∀ a ∈ submittedFor dbA4 "qz", ∀ b ∈ submittedFor dbA4 "qz",
        a.score ≤ b.score → a.percentage ≤ b.percentage) ∧
      (∃ A, analyticsFor dbA4 "qz" = some A ∧
        A.lowestScore ≤ A.averageScore ∧ A.averageScore ≤ A.highestScore) := by
  refine ⟨by with_unfolding_all decide, by with_unfolding_all decide, ?_⟩
  exact c6_analytics_bounds dbA3 "qz" "u1" [("q1", "A")] 20 resA4 dbA4
    (by with_unfolding_all decide) (by with_unfolding_all decide)

theorem mkEntries_map_rank : ∀ (i : Nat) (l : List Attempt),
    (mkEntries i l).map (fun e => e.rank) = List.range' (i + 1) l.length
  | _, [] => rfl
  | i, a :: rest => by
    show (i + 1) :: (mkEntries (i + 1) rest).map (fun e => e.rank) = _
    rw [mkEntries_map_rank (i + 1) rest]
    rfl

theorem mem_mkEntries : ∀ {i : Nat} {l : List Attempt} {e : BoardEntry},
    e ∈ mkEntries i l → ∃ b ∈ l, e.percentage = b.percentage
  | _, [], _, h => absurd h (List.not_mem_nil _)
  | i, a :: rest, e, h => by
    rcases List.mem_cons.1 h with rfl | h'
    · exact ⟨a, List.mem_cons_self a rest, rfl⟩
    · obtain ⟨b, hb, hpe⟩ := mem_mkEntries h'
      exact ⟨b, List.mem_cons_of_mem a hb, hpe⟩

theorem mkEntries_pairwise_pct : ∀ (i : Nat) (l : List Attempt),
    l.Pairwise (fun a b => b.percentage ≤ a.percentage) →
    (mkEntries i l).Pairwise (fun e1 e2 => e2.percentage ≤ e1.percentage)
  | _, [], _ => List.Pairwise.nil
  | i, a :: rest, h => by
    rw [List.pairwise_cons] at h
    show List.Pairwise _
      (⟨a.id, i + 1, a.userId, a.score, a.totalMarks, a.percentage, a.submittedAt⟩ ::
        mkEntries (i + 1) rest)
    rw [List.pairwise_cons]
    refine ⟨?_, mkEntries_pairwise_pct (i + 1) rest h.2⟩
    intro e he
    obtain ⟨b, hb, hpe⟩ := mem_mkEntries he
    show e.percentage ≤ a.percentage
    rw [hpe]
    exact h.1 b hb

theorem getLeaderboard_inv {db : DB} {quizId : String} {uid : Option String}
    {resp : BoardResponse} (h : getLeaderboard db quizId uid = some resp) :
    resp.entries = mkEntries 0 (sortBy ltBoard (submittedFor db quizId)) ∧
      resp.totalAttempts = (sortBy ltBoard (submittedFor db quizId)).length := by
  unfold getLeaderboard at h
  cases hq : findQuiz db quizId with
  | none => rw [hq] at h; simp at h
  | some quiz =>
    rw [hq] at h
    simp only [Option.some.injEq] at h
    subst h
    exact ⟨rfl, rfl⟩

/-- C7 (amended): getLeaderboard performs no writes and serves freshly computed
positions — its entries carry the consecutive ranks 1..n in the order by
percentage descending (submit time ascending on ties), so adjacent entries have
non-increasing percentages. These served positions need not equal the persisted
rank values written at submission time, which follow the raw-score order and go
stale (see the counterexample). -/
theorem c7_leaderboard_fresh_positions (db : DB) (quizId : String) (uid : Option String)
    (resp : BoardResponse) (h : getLeaderboard db quizId uid = some resp) :
    resp.entries.map (fun e => e.rank) = List.range' 1 resp.totalAttempts ∧
      resp.entries.Pairwise (fun e1 e2 => e2.percentage ≤ e1.percentage) := by
  obtain ⟨hentries, hta⟩ := getLeaderboard_inv h
  constructor
  · rw [hentries, hta, mkEntries_map_rank]
  · have hsorted := sortBy_pairwise ltBoard ltBoard_asym ltBoard_trans (submittedFor db quizId)
    have hpct : (sortBy ltBoard (submittedFor db quizId)).Pairwise
        (fun a b => b.percentage ≤ a.percentage) := by
      refine hsorted.imp ?_
      intro a b hf
      simp only [ltBoard, Bool.or_eq_false_iff, decide_eq_false_iff_not] at hf
      exact not_lt.1 hf.1
    rw [hentries]
    exact mkEntries_pairwise_pct 0 _ hpct

/-- C7 witness: in `dbA7` the leaderboard response `respA7` carries served
ranks 1 and 2 in percentage order. -/
theorem c7_leaderboard_fresh_witness :
    getLeaderboard dbA7 "qz" none = some respA7 ∧
      (respA7.entries.map (fun e => e.rank) = List.range' 1 respA7.totalAttempts ∧
        respA7.entries.Pairwise (fun e1 e2 => e2.percentage ≤ e1.percentage)) := by
  refine ⟨by with_unfolding_all decide, ?_⟩
  exact c7_leaderboard_fresh_positions dbA7 "qz" none respA7 (by with_unfolding_all decide)

/-- C8 (amended half): the question-management path does recompute the cache —
after a successful question insert, the stored quiz's `totalMarks` equals the
sum of its questions' marks. -/
theorem c8_totalmarks_recomputed_on_question_add (db : DB) (quizId : String)
    (qd : Question) (db2 : DB) (h : addQuestion db quizId qd = some db2) :
    ∃ z, findQuiz db2 quizId = some z ∧ z.totalMarks = computeTotalMarks z.questions := by
  unfold addQuestion at h
  cases hq : findQuiz db quizId with
  | none => rw [hq] at h; simp at h
  | some quiz =>
    rw [hq] at h
    simp only [Option.some.injEq] at h
    subst h
    have hq2 : List.find? (fun q : Quiz => q.id == quizId) db.quizzes = some quiz := hq
    have hpq : (quiz.id == quizId) = true :=
      List.find?_some (p := fun q : Quiz => q.id == quizId) hq2
    refine ⟨{ quiz with questions := quiz.questions ++ [qd], totalMarks := computeTotalMarks (quiz.questions ++ [qd]) }, ?_, rfl⟩
    show List.find? _ (List.map _ db.quizzes) = _
    rw [List.find?_map]
    have hcomp : ∀ z : Quiz,
        ((fun q : Quiz => q.id == quizId) ∘ (fun z : Quiz =>
          if (z.id == quizId) = true then
            { z with questions := quiz.questions ++ [qd], totalMarks := computeTotalMarks (quiz.questions ++ [qd]) }
          else z)) z = (z.id == quizId) := by
      intro z
      by_cases hz : (z.id == quizId) = true
      · have hz2 : z.id = quizId := by simpa using hz
        simp [hz2]
      · have hz2 : ¬ z.id = quizId := by simpa using hz
        simp [hz2]
    rw [find?_congr_fun hcomp]
    rw [hq2]
    have hpq2 : quiz.id = quizId := by simpa using hpq
    simp [hpq2]

/-- C8 witness: adding question `q1` to the fresh quiz of `dbA1` yields `dbA2`,
whose stored `totalMarks` equals the 5 marks of its question set. -/
theorem c8_totalmarks_recompute_witness :
    addQuestion dbA1 "qz" ⟨"q1", "A", 5⟩ = some dbA2 ∧
      (∃ z, findQuiz dbA2 "qz" = some z ∧ z.totalMarks = computeTotalMarks z.questions) := by
  refine ⟨by with_unfolding_all decide, ?_⟩
  exact c8_totalmarks_recomputed_on_question_add dbA1 "qz" ⟨"q1", "A", 5⟩ dbA2
    (by with_unfolding_all decide)

/-- C10 witness: in `dbC` the quiz is deactivated while `u1` holds the Active
attempt `attA3`; submission still succeeds and start still returns `attA3`. -/
theorem c10_lifecycle_witness :
    findActiveAttempt dbC "qz" "u1" = some attA3 ∧
      (findQuiz dbC "qz").map (fun q => q.isActive) = some false ∧
      (submitAttempt dbC "qz" "u1" [("q1", "A")] 99).1.isOk = true ∧
      startAttempt dbC "qz" "u1" 77 = (.ok attA3, dbC) := by
  refine ⟨by with_unfolding_all decide, by with_unfolding_all decide, ?_⟩
  exact c10_lifecycle_ignores_active_flag dbC "qz" "u1" [("q1", "A")] 99 77 attA3
    ⟨"qz", "Quiz", 5, 30, false, [⟨"q1", "A", 5⟩]⟩
    (by with_unfolding_all decide) (by with_unfolding_all decide) rfl

end QuizExam
